import Mathlib

/-!
Verification of the github-issue-analyzer backend (TypeScript sources:
`src/types.ts`, `src/github.ts`, `src/cache.ts`, `src/llm.ts`,
`src/index.ts`) against its natural-language specification.

The code is shallowly embedded: JavaScript strings are Lean `String`s
(sequences of characters, accessed through `String.data` where proofs need
list reasoning), JSON documents are an explicit `Json` AST, the cache file
on disk is a `Disk` state, and the two effectful collaborators — the
source-host HTTP API and the summarization provider — are function
parameters.  The fetch loop, which the source runs without a bound, takes
explicit fuel.
-/

namespace IssueAnalyzer

/-! ## Data model (`src/types.ts`) -/

/-- `GitHubIssue` from `src/types.ts`: `id: number; title: string;
body: string | null; html_url: string; created_at: string`.  A JavaScript
`null` body is `none`. -/
structure GitHubIssue where
  id : Int
  title : String
  body : Option String
  html_url : String
  created_at : String
deriving Repr, DecidableEq

/-- `CachedRepo` from `src/types.ts`: the issue sequence for one repository
plus the `last_updated` ISO timestamp recorded at write time. -/
structure CachedRepo where
  issues : List GitHubIssue
  last_updated : String
deriving Repr, DecidableEq

/-- The in-memory cache: the JavaScript object `JSON.parse` yields from the
cache file, as an ordered association list.  A value is `none` when the
parsed document carried a JSON `null` for that key — the TypeScript
declaration promises `CachedRepo`, but `loadCache` performs an unchecked
cast, so a `null` entry can reach the operations; `getIssues`' `|| null`
is what turns such an entry into an absent result. -/
abbrev Cache := List (String × Option CachedRepo)

/-! ## JavaScript object operations on the cache

`storeIssues` executes `cache[repo] = {...}`, `getIssues` executes
`cache[repo] || null`, `hasRepo` executes `repo in cache`.  An object
keeps at most one binding per key; assignment overwrites in place or
appends a fresh binding at the end. -/

/-- Key lookup in the parsed object: `some v` when the key is bound
(possibly to JSON `null`, i.e. `v = none`), `none` when the key is absent. -/
def cacheFind (c : Cache) (k : String) : Option (Option CachedRepo) :=
  (c.find? (fun p => p.1 == k)).map Prod.snd

/-- `cache[repo] || null`: absent keys and `null` values both read as
absent. -/
def cacheGet (c : Cache) (k : String) : Option CachedRepo :=
  match cacheFind c k with
  | some (some v) => some v
  | _ => none

/-- `repo in cache`: key presence, regardless of the bound value. -/
def cacheHas (c : Cache) (k : String) : Bool :=
  (cacheFind c k).isSome

/-- `cache[repo] = v`: overwrite the binding in place when the key is
present, else append it. -/
def cacheInsert (c : Cache) (k : String) (v : Option CachedRepo) : Cache :=
  match c with
  | [] => [(k, v)]
  | p :: ps => if p.1 == k then (k, v) :: ps else p :: cacheInsert ps k v

/-- Every key is bound at most once (the invariant JavaScript objects have
by construction). -/
def keysNodup (c : Cache) : Prop :=
  (c.map Prod.fst).Nodup

/-! ## Repository-identifier validation (`src/github.ts`)

`validateRepoFormat(repo)` is
`repo.includes("/") && repo.split("/").length === 2`. -/

/-- `String.prototype.split` with a single-character separator: splitting
the empty string yields `[""]`, and each separator occurrence opens a new
segment. -/
def jsSplit (sep : Char) : List Char → List (List Char)
  | [] => [[]]
  | c :: cs =>
    let rest := jsSplit sep cs
    if c = sep then [] :: rest
    else
      match rest with
      | [] => [[c]]
      | s :: ss => (c :: s) :: ss

/-- `GitHubService.validateRepoFormat`:
`repo.includes("/") && repo.split("/").length === 2`. -/
def validateRepoFormat (repo : String) : Bool :=
  repo.data.contains '/' && (jsSplit '/' repo.data).length == 2

/-! ## Issue fetching (`src/github.ts`)

`GitHubService.fetchAllIssues` iterates
`GET /repos/{repo}/issues?state=open&page={n}&per_page=100` from page 1,
stops at the first empty page, skips items carrying a `pull_request` key,
and projects the rest.  The source host is a function from request
parameters to the returned page; the unbounded `while (true)` takes
explicit fuel. -/

/-- The item shape the listing endpoint returns, restricted to the fields
the fetcher reads.  `pull_request` records whether the item carries the
pull-request marker key (`"pull_request" in item`); `body` is `none` when
the field is `null` or missing. -/
structure RawItem where
  pull_request : Bool
  id : Int
  title : String
  body : Option String
  html_url : String
  created_at : String
deriving Repr, DecidableEq

/-- The query parameters of one listing request. -/
structure IssueRequest where
  state : String
  page : Nat
  per_page : Nat
deriving Repr, DecidableEq

/-- The source-host collaborator: one page of items per request. -/
def GitHubHost := IssueRequest → List RawItem

/-- The request the loop issues for a given page:
`state: "open", page, per_page: 100`. -/
def pageItems (host : GitHubHost) (page : Nat) : List RawItem :=
  host { state := "open", page := page, per_page := 100 }

/-- The projection in the loop body:
`{id, title, body: item.body || "", html_url, created_at}`.
A `null` (or missing) body — and also an empty one, since `""` is falsy —
becomes the empty string. -/
def projectItem (item : RawItem) : GitHubIssue :=
  { id := item.id
    title := item.title
    body := some (item.body.getD "")
    html_url := item.html_url
    created_at := item.created_at }

/-- The `while (true)` loop of `fetchAllIssues`, with explicit fuel: fetch
the page, stop if it has no items, otherwise keep the non-pull-request
items (projected) and continue with the next page. -/
def fetchLoop (host : GitHubHost) : Nat → Nat → List GitHubIssue
  | 0, _ => []
  | fuel + 1, page =>
    let items := pageItems host page
    if items.length = 0 then []
    else
      ((items.filter fun item => !item.pull_request).map projectItem)
        ++ fetchLoop host fuel (page + 1)

/-- `GitHubService.fetchAllIssues`: run the loop from page 1. -/
def fetchAllIssues (host : GitHubHost) (fuel : Nat) : List GitHubIssue :=
  fetchLoop host fuel 1

/-! ## JSON documents and the persisted store (`src/cache.ts`)

The cache file holds one JSON document.  `saveCache` writes
`JSON.stringify(cache)`; `loadCache` reads the file and `JSON.parse`s it.
The document is modelled as an explicit AST; the textual
stringify/parse layer is the external JSON library, which is injective on
documents, so save-then-load is parse-of-stringify composed with the
encoding below. -/

/-- JSON values, as far as this store needs them. -/
inductive Json where
  | null
  | str (s : String)
  | num (n : Int)
  | arr (elems : List Json)
  | obj (fields : List (String × Json))
deriving Repr

/-- How `JSON.stringify` serializes one issue record (field order is the
construction order in `fetchAllIssues`). -/
def encodeIssue (i : GitHubIssue) : Json :=
  .obj [("id", .num i.id), ("title", .str i.title),
        ("body", match i.body with | some s => .str s | none => .null),
        ("html_url", .str i.html_url), ("created_at", .str i.created_at)]

/-- Reading an issue record back out of a parsed document produced by
`encodeIssue`. -/
def decodeIssue : Json → Option GitHubIssue
  | .obj [("id", .num id), ("title", .str title), ("body", bodyJ),
          ("html_url", .str url), ("created_at", .str created)] =>
    match bodyJ with
    | .str s => some { id := id, title := title, body := some s,
                       html_url := url, created_at := created }
    | .null => some { id := id, title := title, body := none,
                      html_url := url, created_at := created }
    | _ => none
  | _ => none

/-- Decode a JSON array of issue records; any ill-formed element fails the
whole list. -/
def decodeIssueList : List Json → Option (List GitHubIssue)
  | [] => some []
  | j :: js =>
    match decodeIssue j, decodeIssueList js with
    | some i, some is => some (i :: is)
    | _, _ => none

/-- Serialization of one `{issues, last_updated}` entry. -/
def encodeRepo (r : CachedRepo) : Json :=
  .obj [("issues", .arr (r.issues.map encodeIssue)),
        ("last_updated", .str r.last_updated)]

/-- Reading one cached-repository entry back. -/
def decodeRepo : Json → Option CachedRepo
  | .obj [("issues", .arr items), ("last_updated", .str ts)] =>
    match decodeIssueList items with
    | some issues => some { issues := issues, last_updated := ts }
    | none => none
  | _ => none

/-- Serialization of one cache binding: a JSON `null` entry stays `null`. -/
def encodeEntryVal : Option CachedRepo → Json
  | none => .null
  | some r => encodeRepo r

/-- Reading one cache binding back: `null` is a bound-but-null entry. -/
def decodeEntryVal (j : Json) : Option (Option CachedRepo) :=
  match j with
  | .null => some none
  | _ => (decodeRepo j).map some

/-- Serialization of the whole cache object. -/
def encodeCache (c : Cache) : Json :=
  .obj (c.map fun p => (p.1, encodeEntryVal p.2))

/-- Decode the field list of the top-level object. -/
def decodeEntries : List (String × Json) → Option Cache
  | [] => some []
  | (k, j) :: rest =>
    match decodeEntryVal j, decodeEntries rest with
    | some v, some c => some ((k, v) :: c)
    | _, _ => none

/-- Reading the whole cache object back. -/
def decodeCache : Json → Option Cache
  | .obj fields => decodeEntries fields
  | _ => none

/-- The durable store underneath `issues_cache.json`: the file may be
absent, unreadable/unparseable (any exception thrown by
`fs.readFileSync` or `JSON.parse`), or hold a parsed document. -/
inductive Disk where
  | noFile
  | readFailure
  | content (j : Json)

/-- `CacheService.loadCache`: an absent file and a read or parse failure
both yield the empty cache (the failure is logged, never propagated); a
parsed document is read as a cache object.  (The source performs an
unchecked cast here; a document that is not cache-shaped is outside the
typed model and also reads as empty.) -/
def loadCache : Disk → Cache
  | .noFile => []
  | .readFailure => []
  | .content j => (decodeCache j).getD []

/-- `CacheService.saveCache`: overwrite the file with the serialized
cache; when the underlying write throws, the error is rethrown as
`"Failed to save cache to file"`.  `writeFails` is the environment's
write-failure switch. -/
def saveCache (writeFails : Bool) (c : Cache) : Except String Disk :=
  if writeFails then .error "Failed to save cache to file"
  else .ok (.content (encodeCache c))

/-- `CacheService.storeIssues`: load, bind `repo` to
`{issues, last_updated: now}` (`new Date().toISOString()` is the
write-time parameter `now`), save. -/
def storeIssues (writeFails : Bool) (now : String) (d : Disk)
    (repo : String) (issues : List GitHubIssue) : Except String Disk :=
  saveCache writeFails (cacheInsert (loadCache d) repo (some { issues := issues, last_updated := now }))

/-- `CacheService.getIssues`: load, then `cache[repo] || null`. -/
def getIssues (d : Disk) (repo : String) : Option CachedRepo :=
  cacheGet (loadCache d) repo

/-- `CacheService.hasRepo`: load, then `repo in cache`. -/
def hasRepo (d : Disk) (repo : String) : Bool :=
  cacheHas (loadCache d) repo

/-! ## Prompt assembly and analysis (`src/llm.ts`) -/

/-- `s.substring(0, n)`: the first `n` characters (all of `s` when it is
shorter). -/
def jsSubstring (s : String) (n : Nat) : String :=
  ⟨s.data.take n⟩

/-- The per-issue `body` binding:
`issue.body ? issue.body.substring(0, 500) : "No description"`.
A `null` body and an empty body are both falsy, so both render as the
placeholder. -/
def renderBody : Option String → String
  | none => "No description"
  | some s => if s = "" then "No description" else jsSubstring s 500

/-- The fixed-format block the map over `issues` renders for one issue. -/
def issueBlock (issue : GitHubIssue) : String :=
  "\nIssue ID: " ++ toString issue.id
    ++ "\nTitle: " ++ issue.title
    ++ "\nBody: " ++ renderBody issue.body
    ++ "\nURL: " ++ issue.html_url
    ++ "\nCreated: " ++ issue.created_at
    ++ "\n---"

/-- `Array.prototype.join(sep)`. -/
def jsJoin (sep : String) : List String → String
  | [] => ""
  | [x] => x
  | x :: xs => x ++ sep ++ jsJoin sep xs

/-- `issuesText`: the blocks joined with a newline. -/
def issuesText (issues : List GitHubIssue) : String :=
  jsJoin "\n" (issues.map issueBlock)

/-- The fixed system-role instruction. -/
def systemPrompt : String :=
  "You are an expert software project analyst. You analyze GitHub issues to identify "
    ++ "patterns, themes, and priorities. Provide clear, actionable insights based on the issues provided."

/-- `fullPrompt`: intro line naming the repository, the caller's
instruction verbatim, the heading, the joined blocks, the closing
directive. -/
def fullPrompt (repo : String) (issues : List GitHubIssue) (userPrompt : String) : String :=
  "Analyze the following GitHub issues from the repository '" ++ repo ++ "'.\n\n"
    ++ userPrompt
    ++ "\n\nHere are the issues:\n\n"
    ++ issuesText issues
    ++ "\n\nPlease provide a comprehensive analysis based on the request above."

/-- The summarization-provider collaborator:
`complete(systemText, userText, maxOutputUnits) → text`. -/
def Summarizer := String → String → Nat → String

/-- `LLMService.analyzeIssues`: render the prompt and dispatch it to the
configured provider with an upper bound of 4000 output tokens. -/
def analyzeIssues (complete : Summarizer) (repo : String)
    (issues : List GitHubIssue) (userPrompt : String) : String :=
  complete systemPrompt (fullPrompt repo issues userPrompt) 4000

/-! ## The `/analyze` handler (`src/index.ts`) -/

/-- The outcomes of the `/analyze` handler, by HTTP status. -/
inductive AnalyzeResult where
  | badRequest (msg : String)
  | notFound (msg : String)
  | serverError (msg : String)
  | ok (analysis : String)
deriving Repr, DecidableEq

/-- JavaScript falsiness of `body.repo` / `body.prompt`: a missing field
or an empty string. -/
def isFalsy : Option String → Bool
  | none => true
  | some s => s == ""

/-- The `POST /analyze` handler.  Alongside the response it counts how
often the summarization provider is invoked (each `analyzeIssues` call
dispatches to the provider exactly once). -/
def analyzeHandler (complete : Summarizer) (d : Disk)
    (repoField promptField : Option String) : AnalyzeResult × Nat :=
  if isFalsy repoField || isFalsy promptField then
    (.badRequest "Missing 'repo' or 'prompt' field in request body", 0)
  else
    let repo := repoField.getD ""
    let prompt := promptField.getD ""
    if !hasRepo d repo then
      (.notFound ("Repository '" ++ repo ++ "' not yet scanned. Please call /scan first."), 0)
    else
      match getIssues d repo with
      | none => (.serverError ("Failed to retrieve cached data for repository '" ++ repo ++ "'"), 0)
      | some cachedData =>
        if cachedData.issues.length = 0 then
          (.ok "No issues found in the cache for this repository. The repository may not have any open issues.", 0)
        else
          (.ok (analyzeIssues complete repo cachedData.issues prompt), 1)

/-- Disk states reachable from a fresh deployment (no cache file) by
successful `storeIssues` operations — the states a running system that
only ever writes through the cache service can be in. -/
inductive ReachableDisk : Disk → Prop
  | init : ReachableDisk .noFile
  | store {d d' : Disk} {now repo : String} {issues : List GitHubIssue} :
      ReachableDisk d → storeIssues false now d repo issues = .ok d' →
      ReachableDisk d'

/-! ## Concrete fixtures

Small closed instances used to evaluate the theorems below on executable
inputs. -/

/-- An ordinary open issue as returned by the listing endpoint. -/
def sampleItem : RawItem :=
  { pull_request := false, id := 1, title := "T1", body := none,
    html_url := "u1", created_at := "c1" }

/-- An item carrying the pull-request marker. -/
def samplePR : RawItem :=
  { pull_request := true, id := 2, title := "T2", body := some "bb",
    html_url := "u2", created_at := "c2" }

/-- A host whose page 1 holds one issue and one pull request, whose page 2
holds only a pull request (non-empty, so the walk continues), and whose
page 3 is empty. -/
def sampleHost : GitHubHost := fun r =>
  if r.page = 1 then [sampleItem, samplePR]
  else if r.page = 2 then [samplePR]
  else []

/-- The disk after scanning `sampleHost` into an empty deployment. -/
def sampleScanDisk : Disk :=
  .content (encodeCache [("o/r", some { issues := [projectItem sampleItem], last_updated := "t2" })])

/-- The entry `sampleScanDisk` holds for `"o/r"`. -/
def sampleCr : CachedRepo :=
  { issues := [projectItem sampleItem], last_updated := "t2" }

/-- A disk holding an entry with an empty issue list. -/
def sampleEmptyDisk : Disk :=
  .content (encodeCache [("o/r", some { issues := [], last_updated := "t0" })])

/-- A pre-existing cached issue, to be replaced by a re-scan. -/
def oldIssue : GitHubIssue :=
  { id := 7, title := "Old", body := some "ob", html_url := "ou", created_at := "oc" }

/-- A disk with a prior entry for `"x/y"`. -/
def sampleOldDisk : Disk :=
  .content (encodeCache [("x/y", some { issues := [oldIssue], last_updated := "t0" })])

/-- The disk after re-storing `"x/y"` with a fresh issue list. -/
def sampleNewDisk : Disk :=
  .content (encodeCache [("x/y", some { issues := [projectItem sampleItem], last_updated := "t1" })])

/-- An issue whose body has 501 characters. -/
def longIssue : GitHubIssue :=
  { id := 9, title := "L", body := some (String.mk (List.replicate 501 'a')),
    html_url := "u", created_at := "c" }

/-! ## Object-operation lemmas -/

theorem cacheFind_insert_self (c : Cache) (k : String) (v : Option CachedRepo) :
    cacheFind (cacheInsert c k v) k = some v := by
  induction c with
  | nil => simp [cacheInsert, cacheFind]
  | cons p ps ih =>
    by_cases h : (p.1 == k) = true
    · simp [cacheInsert, h, cacheFind]
    · simp only [cacheInsert, h, if_false]
      simpa [cacheFind, List.find?, h] using ih

theorem cacheFind_insert_ne (c : Cache) (k k' : String) (v : Option CachedRepo)
    (hne : k' ≠ k) : cacheFind (cacheInsert c k v) k' = cacheFind c k' := by
  have hkk' : (k == k') = false := beq_eq_false_iff_ne.mpr (Ne.symm hne)
  induction c with
  | nil => simp [cacheInsert, cacheFind, List.find?, hkk']
  | cons p ps ih =>
    by_cases h : (p.1 == k) = true
    · have hpk : p.1 = k := by simpa using h
      have hp' : (p.1 == k') = false := by rw [hpk]; exact hkk'
      simp [cacheInsert, h, cacheFind, List.find?, hp', hkk', hpk]
    · simp only [cacheInsert, h, if_false]
      by_cases h2 : (p.1 == k') = true
      · simp [cacheFind, List.find?, h2]
      · simpa [cacheFind, List.find?, h2] using ih

theorem cacheGet_insert_self (c : Cache) (k : String) (r : CachedRepo) :
    cacheGet (cacheInsert c k (some r)) k = some r := by
  simp [cacheGet, cacheFind_insert_self]

theorem cacheHas_insert_self (c : Cache) (k : String) (v : Option CachedRepo) :
    cacheHas (cacheInsert c k v) k = true := by
  simp [cacheHas, cacheFind_insert_self]

theorem cacheGet_some_find (c : Cache) (k : String) (v : CachedRepo)
    (h : cacheGet c k = some v) : cacheFind c k = some (some v) := by
  unfold cacheGet at h
  cases hf : cacheFind c k with
  | none => rw [hf] at h; simp at h
  | some vo =>
    rw [hf] at h
    cases vo with
    | none => simp at h
    | some r => simp only [Option.some.injEq] at h; rw [h]

theorem cacheHas_of_get_some (c : Cache) (k : String) (v : CachedRepo)
    (h : cacheGet c k = some v) : cacheHas c k = true := by
  simp [cacheHas, cacheGet_some_find c k v h]

theorem keys_insert_of_mem (c : Cache) (k : String) (v : Option CachedRepo)
    (h : k ∈ c.map Prod.fst) :
    (cacheInsert c k v).map Prod.fst = c.map Prod.fst := by
  induction c with
  | nil => simp at h
  | cons p ps ih =>
    by_cases hk : (p.1 == k) = true
    · have hpk : p.1 = k := by simpa using hk
      simp [cacheInsert, hk, hpk]
    · have hpk : p.1 ≠ k := by simpa using hk
      have hmem : k ∈ ps.map Prod.fst := by
        rw [List.map_cons] at h
        rcases List.mem_cons.mp h with h1 | h1
        · exact absurd h1.symm hpk
        · exact h1
      simp [cacheInsert, hk, ih hmem]

theorem keys_insert_of_not_mem (c : Cache) (k : String) (v : Option CachedRepo)
    (h : k ∉ c.map Prod.fst) :
    (cacheInsert c k v).map Prod.fst = c.map Prod.fst ++ [k] := by
  induction c with
  | nil => simp [cacheInsert]
  | cons p ps ih =>
    have hpk : p.1 ≠ k := by
      intro he
      exact h (by simp [he])
    have hk : (p.1 == k) = false := beq_eq_false_iff_ne.mpr hpk
    have hmem : k ∉ ps.map Prod.fst := by
      intro hm
      exact h (by simp [hm])
    simp [cacheInsert, hk, ih hmem]

theorem keysNodup_insert (c : Cache) (k : String) (v : Option CachedRepo)
    (h : keysNodup c) : keysNodup (cacheInsert c k v) := by
  unfold keysNodup at h ⊢
  by_cases hk : k ∈ c.map Prod.fst
  · rw [keys_insert_of_mem c k v hk]
    exact h
  · rw [keys_insert_of_not_mem c k v hk]
    simp [List.nodup_append, h, hk]

theorem entries_isSome_insert (c : Cache) (k : String) (r : CachedRepo)
    (h : ∀ p ∈ c, p.2.isSome = true) :
    ∀ p ∈ cacheInsert c k (some r), p.2.isSome = true := by
  induction c with
  | nil => simp [cacheInsert]
  | cons q qs ih =>
    by_cases hq : (q.1 == k) = true
    · simp only [cacheInsert, hq, if_true]
      intro p hp
      rcases List.mem_cons.mp hp with h1 | h1
      · rw [h1]; rfl
      · exact h p (List.mem_cons_of_mem _ h1)
    · simp only [cacheInsert, hq, if_false]
      intro p hp
      rcases List.mem_cons.mp hp with h1 | h1
      · exact h p (by rw [h1]; exact List.mem_cons_self _ _)
      · exact ih (fun p hp => h p (List.mem_cons_of_mem _ hp)) p h1

/-! ## Validator lemmas (C1) -/

theorem jsSplit_length (sep : Char) (l : List Char) :
    (jsSplit sep l).length = l.count sep + 1 := by
  induction l with
  | nil => simp [jsSplit]
  | cons c cs ih =>
    by_cases h : c = sep
    · subst h
      simp [jsSplit, List.count_cons, ih]
    · have hne : jsSplit sep cs ≠ [] := by
        intro hemp
        rw [hemp] at ih
        simp at ih
      obtain ⟨s, ss, hss⟩ := List.exists_cons_of_ne_nil hne
      rw [hss] at ih
      simp only [List.length_cons] at ih
      simp [jsSplit, h, hss, List.count_cons, ih, Ne.symm h]

/-- C1 counterexample: the claim says `validateRepoFormat` rejects every
string with an empty segment, such as `"/b"` and `"a/"`; the code accepts
both (one slash makes `split("/")` have length 2 even when a segment is
empty). -/
theorem validateRepoFormat_accepts_empty_segment :
    validateRepoFormat "/b" = true ∧ validateRepoFormat "a/" = true := by
  constructor <;> decide

/-- C1 (amended): `validateRepoFormat` accepts exactly the strings that
contain exactly one slash character — the two segments around it may be
empty — and rejects the empty string, strings with no slash, and strings
with more than one slash. -/
theorem validateRepoFormat_iff_single_slash (s : String) :
    validateRepoFormat s = true ↔ s.data.count '/' = 1 := by
  unfold validateRepoFormat
  rw [Bool.and_eq_true, beq_iff_eq, jsSplit_length]
  constructor
  · rintro ⟨h1, h2⟩; omega
  · intro h
    refine ⟨?_, by omega⟩
    rw [List.elem_iff]
    exact List.count_pos_iff.mp (by omega)

/-! ## Serialization round-trip lemmas -/

theorem decodeIssue_encodeIssue (i : GitHubIssue) :
    decodeIssue (encodeIssue i) = some i := by
  obtain ⟨id, title, body, url, created⟩ := i
  cases body <;> rfl

theorem decodeIssueList_map_encode (l : List GitHubIssue) :
    decodeIssueList (l.map encodeIssue) = some l := by
  induction l with
  | nil => rfl
  | cons i is ih => simp [decodeIssueList, decodeIssue_encodeIssue, ih]

theorem decodeRepo_encodeRepo (r : CachedRepo) :
    decodeRepo (encodeRepo r) = some r := by
  obtain ⟨issues, ts⟩ := r
  simp [encodeRepo, decodeRepo, decodeIssueList_map_encode]

theorem decodeEntryVal_encodeEntryVal (v : Option CachedRepo) :
    decodeEntryVal (encodeEntryVal v) = some v := by
  cases v with
  | none => rfl
  | some r =>
    obtain ⟨issues, ts⟩ := r
    simp [encodeEntryVal, encodeRepo, decodeEntryVal, decodeRepo,
      decodeIssueList_map_encode]

theorem decodeCache_encodeCache (c : Cache) :
    decodeCache (encodeCache c) = some c := by
  suffices h : decodeEntries (c.map fun p => (p.1, encodeEntryVal p.2)) = some c by
    simpa [encodeCache, decodeCache] using h
  induction c with
  | nil => rfl
  | cons p ps ih => simp [decodeEntries, decodeEntryVal_encodeEntryVal, ih]

theorem loadCache_content_encode (c : Cache) :
    loadCache (.content (encodeCache c)) = c := by
  simp [loadCache, decodeCache_encodeCache]

theorem storeIssues_ok (now : String) (d : Disk) (repo : String)
    (issues : List GitHubIssue) (d' : Disk)
    (h : storeIssues false now d repo issues = .ok d') :
    loadCache d' =
      cacheInsert (loadCache d) repo (some { issues := issues, last_updated := now }) := by
  unfold storeIssues saveCache at h
  simp only [Bool.false_eq_true, if_false, Except.ok.injEq] at h
  rw [← h, loadCache_content_encode]

/-- C8: save-then-load is the identity on cache contents — the reloaded
cache has the same bindings, in particular the same repository
identifiers, issue sequences and `last_updated` timestamps. -/
theorem cache_save_load_roundtrip (c : Cache) :
    (saveCache false c).map loadCache = Except.ok c := by
  simp [saveCache, Except.map, loadCache_content_encode]

/-- C9: `loadCache` never fails the caller — a missing store and a
read/parse failure both yield the empty cache — while `saveCache`
surfaces the persistence error exactly when the underlying write fails,
and otherwise overwrites the store. -/
theorem loadCache_total_saveCache_surfaces :
    loadCache .noFile = [] ∧ loadCache .readFailure = []
    ∧ (∀ c, saveCache true c = .error "Failed to save cache to file")
    ∧ (∀ c, saveCache false c = .ok (.content (encodeCache c))) := by
  refine ⟨rfl, rfl, fun c => rfl, fun c => rfl⟩

/-! ## Store/retrieve theorems (C4, C7) -/

/-- C4: re-storing a repository identifier fully replaces the prior cached
entry — the entry afterwards is exactly the new issue list with
`last_updated` set to the write time, other identifiers are untouched, and
the at-most-one-entry-per-identifier invariant is preserved. -/
theorem storeIssues_replaces_entry (now : String) (d : Disk) (repo : String)
    (issues : List GitHubIssue) (d' : Disk)
    (hstore : storeIssues false now d repo issues = .ok d') :
    getIssues d' repo = some { issues := issues, last_updated := now }
    ∧ (∀ k, k ≠ repo → getIssues d' k = getIssues d k ∧ hasRepo d' k = hasRepo d k)
    ∧ (keysNodup (loadCache d) → keysNodup (loadCache d')) := by
  have hload := storeIssues_ok now d repo issues d' hstore
  refine ⟨?_, ?_, ?_⟩
  · unfold getIssues
    rw [hload]
    exact cacheGet_insert_self _ _ _
  · intro k hk
    unfold getIssues hasRepo cacheGet cacheHas
    rw [hload, cacheFind_insert_ne _ _ _ _ hk]
    exact ⟨rfl, rfl⟩
  · intro h
    rw [hload]
    exact keysNodup_insert _ _ _ h

/-- C7: after a successful scan — a store of the fetched issue list —
`hasRepo` answers true and `getIssues` returns exactly the fetched
sequence, in fetch order, stamped with the write time. -/
theorem scan_then_has_get (host : GitHubHost) (fuel : Nat) (now : String)
    (d : Disk) (repo : String) (d' : Disk)
    (hstore : storeIssues false now d repo (fetchAllIssues host fuel) = .ok d') :
    hasRepo d' repo = true
    ∧ getIssues d' repo = some { issues := fetchAllIssues host fuel, last_updated := now } := by
  have hload := storeIssues_ok now d repo (fetchAllIssues host fuel) d' hstore
  constructor
  · unfold hasRepo
    rw [hload]
    exact cacheHas_insert_self _ _ _
  · unfold getIssues
    rw [hload]
    exact cacheGet_insert_self _ _ _

/-! ## Analyze-handler theorems (C2, C10) -/

/-- C2: an analyze request for a repository whose cached entry has an
empty issue list returns the fixed informational sentence and performs
zero provider calls (the response is also independent of the provider
parameter). -/
theorem analyze_empty_issues_no_provider_call (complete : Summarizer) (d : Disk)
    (repo prompt : String) (entry : CachedRepo)
    (hrepo : repo ≠ "") (hprompt : prompt ≠ "")
    (hget : getIssues d repo = some entry) (hempty : entry.issues = []) :
    analyzeHandler complete d (some repo) (some prompt) =
      (.ok "No issues found in the cache for this repository. The repository may not have any open issues.", 0) := by
  have hhas : hasRepo d repo = true := cacheHas_of_get_some _ _ _ hget
  simp [analyzeHandler, isFalsy, hrepo, hprompt, hhas, hget, hempty]

theorem reachable_entries_isSome (d : Disk) (h : ReachableDisk d) :
    ∀ p ∈ loadCache d, p.2.isSome = true := by
  induction h with
  | init => intro p hp; simp [loadCache] at hp
  | store hR hstore ih =>
    intro p hp
    rw [storeIssues_ok _ _ _ _ _ hstore] at hp
    exact entries_isSome_insert _ _ _ ih p hp

/-- C10: in every disk state reachable from a fresh deployment by store
operations, the membership check and the lookup agree — `hasRepo` is true
exactly when `getIssues` is non-absent — so the `/analyze` handler's
500-fallback for a present-but-unretrievable entry can never fire. -/
theorem reachable_has_get_agree (d : Disk) (hReach : ReachableDisk d) (repo : String) :
    hasRepo d repo = (getIssues d repo).isSome
    ∧ ∀ (complete : Summarizer) (prompt msg : String),
        (analyzeHandler complete d (some repo) (some prompt)).1 ≠ .serverError msg := by
  have hinv := reachable_entries_isSome d hReach
  have hag : hasRepo d repo = (getIssues d repo).isSome := by
    unfold hasRepo getIssues cacheHas cacheGet cacheFind
    cases hq : (loadCache d).find? (fun p => p.1 == repo) with
    | none => simp
    | some q =>
      have hqs : q.2.isSome = true :=
        hinv q (List.mem_of_find?_eq_some hq)
      obtain ⟨r, hr⟩ := Option.isSome_iff_exists.mp hqs
      simp [hr]
  refine ⟨hag, ?_⟩
  intro complete prompt msg
  cases hb : (isFalsy (some repo) || isFalsy (some prompt)) with
  | true => simp [analyzeHandler, hb]
  | false =>
    cases hh : hasRepo d repo with
    | false => simp [analyzeHandler, hb, hh]
    | true =>
      have hsome : (getIssues d repo).isSome = true := by rw [← hag]; exact hh
      obtain ⟨entry, hget⟩ := Option.isSome_iff_exists.mp hsome
      by_cases he : entry.issues.length = 0 <;>
        simp [analyzeHandler, hb, hh, hget, he]

/-! ## Fetcher theorems (C5, C6) -/

theorem fetchLoop_congr (h1 h2 : GitHubHost)
    (hagree : ∀ p, pageItems h1 p = pageItems h2 p) :
    ∀ fuel page, fetchLoop h1 fuel page = fetchLoop h2 fuel page := by
  intro fuel
  induction fuel with
  | zero => intro page; rfl
  | succ f ih =>
    intro page
    simp only [fetchLoop, hagree page, ih (page + 1)]

theorem fetchLoop_eq_join (host : GitHubHost) :
    ∀ (k fuel page : Nat),
      (∀ i, i < k → pageItems host (page + i) ≠ []) →
      pageItems host (page + k) = [] →
      k < fuel →
      fetchLoop host fuel page =
        ((List.range k).map fun i =>
          ((pageItems host (page + i)).filter fun item => !item.pull_request).map projectItem).flatten := by
  intro k
  induction k with
  | zero =>
    intro fuel page hne hstop hfuel
    obtain ⟨f, rfl⟩ : ∃ f, fuel = f + 1 := ⟨fuel - 1, by omega⟩
    rw [Nat.add_zero] at hstop
    simp [fetchLoop, hstop]
  | succ k ih =>
    intro fuel page hne hstop hfuel
    obtain ⟨f, rfl⟩ : ∃ f, fuel = f + 1 := ⟨fuel - 1, by omega⟩
    have h0 : pageItems host page ≠ [] := by
      have := hne 0 (by omega)
      simpa using this
    have hrec := ih f (page + 1)
      (fun i hi => by
        have := hne (i + 1) (by omega)
        rw [show page + (i + 1) = page + 1 + i by omega] at this
        exact this)
      (by
        rw [show page + 1 + k = page + (k + 1) by omega]
        exact hstop)
      (by omega)
    simp only [fetchLoop]
    rw [if_neg (fun hlen => h0 (List.length_eq_zero.mp hlen))]
    rw [hrec, List.range_succ_eq_map]
    simp only [List.map_cons, List.flatten_cons, List.map_map, Nat.add_zero]
    congr 1
    congr 1
    apply List.map_congr_left
    intro i _
    simp only [Function.comp_apply]
    have harg : page + 1 + i = page + Nat.succ i := by omega
    rw [harg]

/-- C6: the fetcher walks pages of fixed size 100 in the open state
starting at page 1, stops exactly at the first empty page, and returns
the concatenation of the surviving items in page order (so a page holding
only pull requests, being non-empty, does not stop the walk); moreover the
result depends only on the host's answers to `state=open, per_page=100`
requests. -/
theorem fetchAllIssues_pagination (host : GitHubHost) (k fuel : Nat)
    (hpages : ∀ i, i < k → pageItems host (1 + i) ≠ [])
    (hstop : pageItems host (1 + k) = [])
    (hfuel : k < fuel) :
    fetchAllIssues host fuel =
      ((List.range k).map fun i =>
        ((pageItems host (1 + i)).filter fun item => !item.pull_request).map projectItem).flatten
    ∧ ∀ host₂ : GitHubHost, (∀ p, pageItems host p = pageItems host₂ p) →
        fetchAllIssues host fuel = fetchAllIssues host₂ fuel := by
  exact ⟨fetchLoop_eq_join host k fuel 1 hpages hstop hfuel,
    fun host₂ hagree => fetchLoop_congr host host₂ hagree fuel 1⟩

theorem fetchLoop_mem (host : GitHubHost) :
    ∀ (fuel page : Nat) (issue : GitHubIssue), issue ∈ fetchLoop host fuel page →
      ∃ p item, item ∈ pageItems host p ∧ item.pull_request = false
        ∧ issue = projectItem item := by
  intro fuel
  induction fuel with
  | zero => intro page issue h; simp [fetchLoop] at h
  | succ f ih =>
    intro page issue h
    simp only [fetchLoop] at h
    by_cases hlen : (pageItems host page).length = 0
    · rw [if_pos hlen] at h
      simp at h
    · rw [if_neg hlen] at h
      rcases List.mem_append.mp h with h1 | h1
      · obtain ⟨item, hitem, hproj⟩ := List.mem_map.mp h1
        have hmm := List.mem_filter.mp hitem
        refine ⟨page, item, hmm.1, by simpa using hmm.2, hproj.symm⟩
      · exact ih (page + 1) issue h1

/-- C5: every issue in the fetched — and hence cached — sequence arises
from a source item without the pull-request marker (marked items are
skipped), and its body is the item's body with a missing body defaulted
to the empty string. -/
theorem fetch_skips_pull_requests (host : GitHubHost) (fuel : Nat) (now : String)
    (d : Disk) (repo : String) (d' : Disk) (cr : CachedRepo)
    (hstore : storeIssues false now d repo (fetchAllIssues host fuel) = .ok d')
    (hget : getIssues d' repo = some cr) :
    cr.issues = fetchAllIssues host fuel
    ∧ ∀ issue ∈ cr.issues,
        ∃ p item, item ∈ pageItems host p ∧ item.pull_request = false
          ∧ issue = projectItem item ∧ issue.body = some (item.body.getD "") := by
  have hload := storeIssues_ok _ _ _ _ _ hstore
  have hget2 : getIssues d' repo = some { issues := fetchAllIssues host fuel, last_updated := now } := by
    unfold getIssues
    rw [hload]
    exact cacheGet_insert_self _ _ _
  rw [hget] at hget2
  have hcr : cr = { issues := fetchAllIssues host fuel, last_updated := now } := by
    injection hget2
  constructor
  · rw [hcr]
  · intro issue hmem
    rw [hcr] at hmem
    obtain ⟨p, item, h1, h2, h3⟩ := fetchLoop_mem host fuel 1 issue hmem
    exact ⟨p, item, h1, h2, h3, by rw [h3]; rfl⟩

/-! ## Prompt-rendering theorems (C3) -/

theorem jsJoin_split_of_mem (sep x : String) :
    ∀ l : List String, x ∈ l → ∃ s t, jsJoin sep l = s ++ x ++ t := by
  intro l
  induction l with
  | nil => intro h; simp at h
  | cons y ys ih =>
    intro h
    cases ys with
    | nil =>
      have hx : x = y := by simpa using h
      exact ⟨"", "", by simp [jsJoin, hx, String.empty_append, String.append_empty]⟩
    | cons z zs =>
      rcases List.mem_cons.mp h with h1 | h1
      · refine ⟨"", sep ++ jsJoin sep (z :: zs), ?_⟩
        simp [jsJoin, h1, String.empty_append, String.append_assoc]
      · obtain ⟨s, t, hst⟩ := ih h1
        refine ⟨y ++ sep ++ s, t, ?_⟩
        simp [jsJoin, hst, String.append_assoc]

/-- C3: in the rendered prompt each issue's block appears verbatim; in the
block a body longer than 500 characters is truncated to exactly its first
500 characters, an absent or empty body renders as the fixed placeholder,
and a non-empty body of at most 500 characters renders unchanged. -/
theorem prompt_body_truncation (repo userPrompt : String) (issues : List GitHubIssue)
    (issue : GitHubIssue) (hmem : issue ∈ issues) :
    (∃ s t, fullPrompt repo issues userPrompt = s ++ issueBlock issue ++ t)
    ∧ issueBlock issue = "\nIssue ID: " ++ toString issue.id ++ "\nTitle: " ++ issue.title
        ++ "\nBody: " ++ renderBody issue.body ++ "\nURL: " ++ issue.html_url
        ++ "\nCreated: " ++ issue.created_at ++ "\n---"
    ∧ (∀ s, issue.body = some s → 500 < s.data.length →
        renderBody issue.body = jsSubstring s 500
        ∧ (jsSubstring s 500).data = s.data.take 500
        ∧ (jsSubstring s 500).data.length = 500)
    ∧ (issue.body = none ∨ issue.body = some "" → renderBody issue.body = "No description")
    ∧ (∀ s, issue.body = some s → s ≠ "" → s.data.length ≤ 500 → renderBody issue.body = s) := by
  refine ⟨?_, rfl, ?_, ?_, ?_⟩
  · have hblock : issueBlock issue ∈ issues.map issueBlock :=
      List.mem_map_of_mem _ hmem
    obtain ⟨s, t, hst⟩ := jsJoin_split_of_mem "\n" (issueBlock issue) (issues.map issueBlock) hblock
    refine ⟨"Analyze the following GitHub issues from the repository '" ++ repo ++ "'.\n\n"
      ++ userPrompt ++ "\n\nHere are the issues:\n\n" ++ s,
      t ++ "\n\nPlease provide a comprehensive analysis based on the request above.", ?_⟩
    unfold fullPrompt issuesText
    rw [hst]
    simp [String.append_assoc]
  · intro s hs hlen
    have hne : s ≠ "" := by
      intro he
      rw [he] at hlen
      exact absurd hlen (by decide)
    refine ⟨?_, rfl, ?_⟩
    · rw [hs]
      simp [renderBody, hne]
    · show (s.data.take 500).length = 500
      rw [List.length_take]
      omega
  · rintro (h | h) <;> rw [h] <;> simp [renderBody]
  · intro s hs hne hlen
    rw [hs]
    simp only [renderBody, if_neg hne]
    apply String.ext
    exact List.take_of_length_le hlen

/-! ## Witnesses: the theorems above evaluated on the fixtures -/

/-- C4 witness: re-storing `"x/y"` on a disk with a prior entry yields a
disk whose entry is exactly the new list with the new timestamp, and the
one-entry-per-key invariant holds. -/
theorem storeIssues_replaces_entry_witness :
    storeIssues false "t1" sampleOldDisk "x/y" [projectItem sampleItem] = Except.ok sampleNewDisk
    ∧ getIssues sampleNewDisk "x/y" = some { issues := [projectItem sampleItem], last_updated := "t1" }
    ∧ keysNodup (loadCache sampleNewDisk) := by
  have h := storeIssues_replaces_entry "t1" sampleOldDisk "x/y" [projectItem sampleItem]
    sampleNewDisk (by rfl)
  refine ⟨by rfl, h.1, h.2.2 ?_⟩
  show ((loadCache sampleOldDisk).map Prod.fst).Nodup
  decide

/-- C7 witness: scanning `sampleHost` into an empty deployment makes
`hasRepo` true and `getIssues` return exactly the fetched sequence. -/
theorem scan_then_has_get_witness :
    storeIssues false "t2" Disk.noFile "o/r" (fetchAllIssues sampleHost 3) = Except.ok sampleScanDisk
    ∧ (hasRepo sampleScanDisk "o/r" = true
       ∧ getIssues sampleScanDisk "o/r"
          = some { issues := fetchAllIssues sampleHost 3, last_updated := "t2" }) :=
  ⟨by rfl, scan_then_has_get sampleHost 3 "t2" Disk.noFile "o/r" sampleScanDisk (by rfl)⟩

/-- C2 witness: analyzing the repository whose cached entry is empty
returns the fixed sentence with zero provider calls. -/
theorem analyze_empty_issues_witness :
    analyzeHandler (fun _ _ _ => "analysis") sampleEmptyDisk (some "o/r") (some "list themes") =
      (.ok "No issues found in the cache for this repository. The repository may not have any open issues.", 0) :=
  analyze_empty_issues_no_provider_call (fun _ _ _ => "analysis") sampleEmptyDisk
    "o/r" "list themes" { issues := [], last_updated := "t0" }
    (by decide) (by decide) (by rfl) rfl

/-- C10 witness: on a disk reached by one successful store, membership and
lookup agree and the 500-fallback of `/analyze` cannot fire. -/
theorem reachable_has_get_agree_witness :
    hasRepo sampleScanDisk "o/r" = (getIssues sampleScanDisk "o/r").isSome
    ∧ (analyzeHandler (fun _ _ _ => "analysis") sampleScanDisk (some "o/r") (some "list themes")).1
        ≠ AnalyzeResult.serverError "Failed to retrieve cached data for repository 'o/r'" := by
  have hreach : ReachableDisk sampleScanDisk :=
    ReachableDisk.store ReachableDisk.init
      (show storeIssues false "t2" Disk.noFile "o/r" [projectItem sampleItem]
          = Except.ok sampleScanDisk from rfl)
  have h := reachable_has_get_agree sampleScanDisk hreach "o/r"
  exact ⟨h.1, h.2 (fun _ _ _ => "analysis") "list themes"
    "Failed to retrieve cached data for repository 'o/r'"⟩

/-- C6 witness: on `sampleHost` the walk requests pages 1, 2, 3, survives
the pull-request-only page 2, and stops at the empty page 3. -/
theorem fetchAllIssues_pagination_witness :
    fetchAllIssues sampleHost 3 =
      ((List.range 2).map fun i =>
        ((pageItems sampleHost (1 + i)).filter fun item => !item.pull_request).map projectItem).flatten :=
  (fetchAllIssues_pagination sampleHost 2 3
    (by intro i hi; interval_cases i <;> decide)
    (by decide) (by decide)).1

/-- C5 witness: the cached sequence for the scanned repository is exactly
the fetched one, and its single issue arises from the unmarked item with
its missing body defaulted to the empty string. -/
theorem fetch_skips_pull_requests_witness :
    storeIssues false "t2" Disk.noFile "o/r" (fetchAllIssues sampleHost 3) = Except.ok sampleScanDisk
    ∧ sampleCr.issues = fetchAllIssues sampleHost 3
    ∧ ∃ p item, item ∈ pageItems sampleHost p ∧ item.pull_request = false
        ∧ projectItem sampleItem = projectItem item
        ∧ (projectItem sampleItem).body = some (item.body.getD "") := by
  have h := fetch_skips_pull_requests sampleHost 3 "t2" Disk.noFile "o/r" sampleScanDisk sampleCr
    (by rfl) (by rfl)
  exact ⟨by rfl, h.1, h.2 (projectItem sampleItem) (by decide)⟩

set_option maxRecDepth 8000 in
/-- C3 witness: a 501-character body renders in the prompt truncated to
exactly its first 500 characters. -/
theorem prompt_body_truncation_witness :
    (∃ s t, fullPrompt "o/r" [longIssue] "list themes" = s ++ issueBlock longIssue ++ t)
    ∧ renderBody longIssue.body = jsSubstring (String.mk (List.replicate 501 'a')) 500
    ∧ (jsSubstring (String.mk (List.replicate 501 'a')) 500).data
        = (String.mk (List.replicate 501 'a')).data.take 500
    ∧ (jsSubstring (String.mk (List.replicate 501 'a')) 500).data.length = 500 := by
  have h := prompt_body_truncation "o/r" "list themes" [longIssue] longIssue
    (List.mem_singleton.mpr rfl)
  have hlen : (500 : Nat) < (String.mk (List.replicate 501 'a')).data.length := by
    show (500 : Nat) < (List.replicate 501 'a').length
    rw [List.length_replicate]
    omega
  have h3 := h.2.2.1 (String.mk (List.replicate 501 'a')) rfl hlen
  exact ⟨h.1, h3.1, h3.2.1, h3.2.2⟩

end IssueAnalyzer
